import Mathlib

/-!
# Verification of the simple-task-timer core

A shallow embedding of the task timer's core (duration codec, `Task` state
machine, task store operations) translated from the Rust sources
(`src/utils.rs`, `src/task.rs`, `src/main.rs`), together with theorems
settling the specification's claims about it.

Modelling conventions:
* Rust strings are `List Char`; byte indices of `str::find` coincide with
  character indices on the ASCII inputs the claims are about.
* `u64`/`u32` values are `Nat`; arithmetic that can wrap in the source is
  taken modulo `2 ^ 64` (durations) or `2 ^ 32` (the id allocator) where
  it matters.
* `SystemTime` is a `Nat` count of seconds; `SystemTime::elapsed` returns
  an error when the clock moved backward and the source converts that to a
  zero duration via `unwrap_or_default`, which `elapsedSecs` reproduces.
* A Rust panic (`unwrap` / `expect` on a failing value, out-of-bounds
  slicing) is an explicit `panicked` result constructor.
* `HashMap<u32, Task>` is an association list `List (Nat × Task)`;
  iteration order only feeds order-insensitive folds (maximum) in the
  translated code.
-/

namespace TaskTimer

/-- Size of the `u64` value space; `u64` arithmetic wraps modulo this. -/
def u64Size : Nat := 18446744073709551616

/-- Size of the `u32` value space; `u32` arithmetic wraps modulo this. -/
def u32Size : Nat := 4294967296

/-- Result of `parse_time_string_to_seconds` (`src/utils.rs`).
`invalidFormat` is the `Err("error parsing time")` branch; `panicked`
records that the Rust code aborts (`.expect` on a failed `parse::<u64>`,
or an out-of-range slice `&input[h_index+1..m_index]`). -/
inductive ParseResult where
  | ok (seconds : Nat)
  | invalidFormat
  | panicked
deriving DecidableEq

/-- Index of the first occurrence of `c`, as Rust's `str::find`. -/
def firstIdx (c : Char) : List Char → Option Nat
  | [] => none
  | x :: xs => if x = c then some 0 else (firstIdx c xs).map (· + 1)

/-- Rust's `str::parse::<u64>`: an optional leading `+`, then one or more
decimal digits, value at most `u64::MAX`; anything else is an error. -/
def parseU64 (s : List Char) : Option Nat :=
  let digits := if s.head? = some '+' then s.tail else s
  if digits.isEmpty then none
  else if digits.all Char.isDigit then
    let v := digits.foldl (fun a c => a * 10 + (c.toNat - 48)) 0
    if v < u64Size then some v else none
  else none

/-- `parse_time_string_to_seconds` from `src/utils.rs` (the identical
`parse_time_to_seconds` in `src/main.rs` only differs in wrapping the
result in `Option`, with the callers' `.expect` again panicking).
`input.contains(c)` is `firstIdx c input ≠ none`. -/
def parse_time_string_to_seconds (input : List Char) : ParseResult :=
  let hIdx := firstIdx 'h' input
  let mIdx := firstIdx 'm' input
  if hIdx = none ∧ mIdx = none then .invalidFormat
  else
    let hoursOpt : Option Nat :=
      match hIdx with
      | some i => parseU64 (input.take i)
      | none => some 0
    match hoursOpt with
    | none => .panicked
    | some hours =>
      let minutesOpt : Option Nat :=
        match mIdx with
        | some m =>
          let hStart := match hIdx with
            | some i => i + 1
            | none => 0
          if hStart ≤ m then parseU64 ((input.drop hStart).take (m - hStart))
          else none
        | none => some 0
      match minutesOpt with
      | none => .panicked
      | some minutes => .ok ((hours * 3600 + minutes * 60) % u64Size)

example : parse_time_string_to_seconds "1h30m".toList = .ok 5400 := by decide
example : parse_time_string_to_seconds "45m".toList = .ok 2700 := by decide
example : parse_time_string_to_seconds "2h".toList = .ok 7200 := by decide
example : parse_time_string_to_seconds "".toList = .invalidFormat := by decide
example : parse_time_string_to_seconds "xh".toList = .panicked := by decide
example : parse_time_string_to_seconds "45mh".toList = .panicked := by decide
example : parse_time_string_to_seconds "2habc".toList = .ok 7200 := by decide
example : parse_time_string_to_seconds "1h30mxyz".toList = .ok 5400 := by decide
example : parse_time_string_to_seconds "1m2h".toList = .panicked := by decide

/-- The `Task` record from `src/task.rs` / `src/task_model.rs`.
`last_run` is the optional `SystemTime`, modelled as seconds. -/
structure Task where
  id : Nat
  name : String
  total_duration_seconds : Nat
  running : Bool
  last_run : Option Nat
deriving DecidableEq

/-- `SystemTime::elapsed().unwrap_or_default().as_secs()` measured from
`lastRun` at clock reading `now`: the elapsed seconds, or `0` when the
clock moved backward (`elapsed()` errors and `unwrap_or_default` yields
the zero duration). -/
def elapsedSecs (lastRun now : Nat) : Nat :=
  if lastRun ≤ now then now - lastRun else 0

/-- Result of a `Task` operation returning `Result<(), ()>` on `&mut self`:
`ok` carries the mutated task, `err` the untouched task (the source
returns `Err(())` before any mutation), `panicked` a Rust panic. -/
inductive OpResult where
  | ok (t : Task)
  | err (t : Task)
  | panicked
deriving DecidableEq

/-- The task produced by an operation, when it did not panic. -/
def OpResult.taskOut : OpResult → Option Task
  | .ok t => some t
  | .err t => some t
  | .panicked => none

/-- `Task::current_duration` (`src/task.rs`): total plus elapsed running
time; `none` is the `self.last_run.unwrap()` panic on a running task with
no `last_run`. -/
def Task.current_duration (t : Task) (now : Nat) : Option Nat :=
  if t.running then
    match t.last_run with
    | none => none
    | some lr => some ((t.total_duration_seconds + elapsedSecs lr now) % u64Size)
  else some t.total_duration_seconds

/-- `Task::start` (`src/task.rs`). -/
def Task.start (t : Task) (now : Nat) : OpResult :=
  if t.running then .err t
  else .ok { t with running := true, last_run := some now }

/-- `Task::stop` (`src/task.rs`): commit the elapsed running time into the
total; `last_run` is not cleared. -/
def Task.stop (t : Task) (now : Nat) : OpResult :=
  if ¬ t.running then .err t
  else
    match t.last_run with
    | none => .panicked
    | some lr =>
        .ok { t with
                total_duration_seconds :=
                  (t.total_duration_seconds + elapsedSecs lr now) % u64Size,
                running := false }

/-- `Task::cancel` (`src/task.rs`): discard the running stretch. -/
def Task.cancel (t : Task) : OpResult :=
  if ¬ t.running then .err t
  else .ok { t with running := false }

/-- `Task::rename` (`src/task.rs`). -/
def Task.rename (t : Task) (taskName : String) : Task :=
  { t with name := taskName }

/-- `Task::set_time` (`src/task.rs`): the `.unwrap()` on the parse result
turns both a parse error and a parse panic into a panic. -/
def Task.set_time (t : Task) (time : List Char) : OpResult :=
  if t.running then .err t
  else
    match parse_time_string_to_seconds time with
    | .ok s => .ok { t with total_duration_seconds := s }
    | _ => .panicked

/-- `Task::add_time` (`src/task.rs`); `u64` addition wraps. -/
def Task.add_time (t : Task) (time : List Char) : OpResult :=
  match parse_time_string_to_seconds time with
  | .ok s => .ok { t with total_duration_seconds := (t.total_duration_seconds + s) % u64Size }
  | _ => .panicked

/-- `Task::subtract_time` (`src/task.rs`): parse first (panicking on a bad
token), then reject when the amount exceeds the total. -/
def Task.subtract_time (t : Task) (time : List Char) : OpResult :=
  match parse_time_string_to_seconds time with
  | .ok s =>
      if t.total_duration_seconds < s then .err t
      else .ok { t with total_duration_seconds := t.total_duration_seconds - s }
  | _ => .panicked

/-- The running/last-run coherence invariant from the spec:
`running == true` implies `last_run` is `Some`. -/
def Task.inv (t : Task) : Prop :=
  t.running = true → t.last_run.isSome

instance (t : Task) : Decidable t.inv := by
  unfold Task.inv
  infer_instance

/-- `HashMap<u32, Task>` as an association list. -/
abbrev TaskStore := List (Nat × Task)

/-- `HashMap::get`. -/
def getTask (tasks : TaskStore) (id : Nat) : Option Task :=
  (tasks.find? (fun p => p.1 = id)).map (·.2)

/-- `HashMap::remove`. -/
def removeTask (tasks : TaskStore) (id : Nat) : TaskStore :=
  tasks.filter (fun p => p.1 ≠ id)

/-- `HashMap::insert`: replaces any entry at the key. -/
def insertTask (tasks : TaskStore) (id : Nat) (t : Task) : TaskStore :=
  removeTask tasks id ++ [(id, t)]

/-- `find_new_unique_id` (`src/main.rs`): one plus the maximum `id` field
over the stored tasks, starting from `0`, computed in `u32`. The stored
ids are `u32` values, so the fold itself cannot exceed `u32::MAX`, but
the final `max_id + 1` wraps to `0` at a maximal id of `u32::MAX`
(release-profile semantics; a debug build would abort there instead, and
either way the source does not return `max + 1`). -/
def find_new_unique_id (tasks : TaskStore) : Nat :=
  ((tasks.foldl (fun maxId p => if p.2.id > maxId then p.2.id else maxId) 0) + 1) % u32Size

/-- `create_task` (`src/main.rs`). -/
def create_task (tasks : TaskStore) (taskName : String) (start : Bool) (now : Nat) : TaskStore :=
  let id := find_new_unique_id tasks
  insertTask tasks id
    { id := id
      name := taskName
      total_duration_seconds := 0
      running := start
      last_run := if start then some now else none }

/-- `delete_task` (`src/main.rs`): removal by id; the `Bool` records
whether the task existed. -/
def delete_task (tasks : TaskStore) (id : Nat) : TaskStore × Bool :=
  match getTask tasks id with
  | some _ => (removeTask tasks id, true)
  | none => (tasks, false)

/-- Result of `archive_task`; every constructor carries the resulting pair
of stores (source, archive). -/
inductive ArchiveResult where
  | ok (tasks archive : TaskStore) (newId : Nat)
  | busy (tasks archive : TaskStore)
  | notFound (tasks archive : TaskStore)
deriving DecidableEq

/-- `archive_task` (`src/main.rs`): a stopped task is cloned, given a
fresh id allocated from the archive store, inserted there, and removed
from the source store; a running task leaves both stores untouched. -/
def archive_task (tasks archive : TaskStore) (id : Nat) : ArchiveResult :=
  match getTask tasks id with
  | none => .notFound tasks archive
  | some t =>
      if t.running then .busy tasks archive
      else
        let newId := find_new_unique_id archive
        let archTask : Task :=
          { id := newId
            name := t.name
            total_duration_seconds := t.total_duration_seconds
            running := t.running
            last_run := t.last_run }
        .ok (removeTask tasks id) (insertTask archive newId archTask) newId

/-- Result of the spec's `remove_by_name`. -/
inductive RemoveByNameResult where
  | ok (tasks : TaskStore)
  | notFound
  | ambiguous
deriving DecidableEq

/-- Modelled from the spec: the source has no removal by name
(`delete_task` in `src/main.rs` removes by id only); spec §4.3 specifies
`remove_by_name(name) -> ok | NotFound | Ambiguous`, failing `Ambiguous`
when more than one task shares the name and otherwise removing the sole
match. -/
def remove_by_name (tasks : TaskStore) (taskName : String) : RemoveByNameResult :=
  match tasks.filter (fun p => p.2.name = taskName) with
  | [] => .notFound
  | [p] => .ok (removeTask tasks p.1)
  | _ => .ambiguous

/-- A concrete stopped task, used to instantiate theorems. -/
def sampleStopped : Task :=
  { id := 1, name := "t", total_duration_seconds := 60, running := false, last_run := none }

/-- A concrete running task (started at time 100), used to instantiate
theorems. -/
def sampleRunning : Task :=
  { id := 1, name := "t", total_duration_seconds := 60, running := true, last_run := some 100 }

/-- A concrete key-coherent store (each key equals its task's id) whose
maximal id is `u32::MAX = 4294967295`, exhibiting the wrap of the `u32`
id allocator. -/
def wrapArchive : TaskStore :=
  [(0, { sampleStopped with id := 0, name := "old" }),
   (4294967295, { sampleStopped with id := 4294967295 })]

/-- C1: the claim is right and the code is wrong. `parse_time_string_to_seconds`
reaches `.expect("could not extract hours")` on the token `"xh"` and aborts
the process instead of returning a recoverable `InvalidFormat`, and the
time operations (`set_time`, `add_time`, `subtract_time`) unwrap that
result, so they abort too rather than leaving state unchanged — exactly
the weakness the specification calls out and corrects. -/
theorem parse_panics_on_nondigit_segment :
    parse_time_string_to_seconds "xh".toList = .panicked
    ∧ sampleStopped.set_time "xh".toList = .panicked
    ∧ sampleStopped.add_time "xh".toList = .panicked
    ∧ sampleStopped.subtract_time "xh".toList = .panicked
    ∧ parse_time_string_to_seconds "1h3xm".toList = .panicked := by
  decide

/-- C3: on a running task with `last_run = some lr`, `stop` commits the
elapsed seconds since `lr` into the total (plain addition whenever the sum
is representable in `u64`) and clears `running`; a clock that moved
backward contributes `0` elapsed seconds, never a negative amount; on a
stopped task `stop` fails and leaves the task unchanged. -/
theorem stop_spec :
    (∀ (t : Task) (now lr : Nat), t.running = true → t.last_run = some lr →
        t.total_duration_seconds + elapsedSecs lr now < u64Size →
        t.stop now = .ok { t with
          total_duration_seconds := t.total_duration_seconds + elapsedSecs lr now,
          running := false })
    ∧ (∀ lr now : Nat, now < lr → elapsedSecs lr now = 0)
    ∧ (∀ (t : Task) (now : Nat), t.running = false → t.stop now = .err t) := by
  refine ⟨fun t now lr hrun hlr hfit => ?_, fun lr now h => ?_, fun t now hstop => ?_⟩
  · simp [Task.stop, hrun, hlr, Nat.mod_eq_of_lt hfit]
  · simp [elapsedSecs]
    omega
  · simp [Task.stop, hstop]

/-- Witness instantiating `stop_spec` at concrete inputs. -/
theorem stop_spec_witness :
    sampleRunning.stop 105 = .ok { sampleRunning with
      total_duration_seconds := sampleRunning.total_duration_seconds + elapsedSecs 100 105,
      running := false }
    ∧ elapsedSecs 100 90 = 0
    ∧ sampleStopped.stop 105 = .err sampleStopped :=
  ⟨stop_spec.1 sampleRunning 105 100 rfl rfl (by decide),
   stop_spec.2.1 100 90 (by decide),
   stop_spec.2.2 sampleStopped 105 rfl⟩

/-- C4: on a running task, `cancel` only clears `running`: id, name, total
and `last_run` keep their previous values, so the elapsed stretch since
the last start is discarded; on a stopped task `cancel` fails and the task
is unchanged. -/
theorem cancel_spec :
    (∀ t : Task, t.running = true →
        t.cancel = .ok { t with running := false }
        ∧ ∀ t' : Task, t.cancel = .ok t' →
            t'.total_duration_seconds = t.total_duration_seconds
            ∧ t'.id = t.id ∧ t'.name = t.name ∧ t'.last_run = t.last_run
            ∧ t'.running = false)
    ∧ (∀ t : Task, t.running = false → t.cancel = .err t) := by
  constructor
  · intro t hrun
    constructor
    · simp [Task.cancel, hrun]
    · intro t' hok
      simp [Task.cancel, hrun] at hok
      simp [← hok]
  · intro t hstop
    simp [Task.cancel, hstop]

/-- Witness instantiating `cancel_spec` at concrete inputs. -/
theorem cancel_spec_witness :
    sampleRunning.cancel = .ok { sampleRunning with running := false }
    ∧ sampleStopped.cancel = .err sampleStopped :=
  ⟨(cancel_spec.1 sampleRunning rfl).1, cancel_spec.2 sampleStopped rfl⟩

/-- C5: with a token parsing to `s`, `subtract_time` fails and leaves the
total unchanged when `s` strictly exceeds the total, and otherwise
decreases the total by exactly `s` (the subtraction is exact, so the total
cannot underflow below zero). -/
theorem subtract_time_spec :
    ∀ (t : Task) (time : List Char) (s : Nat),
      parse_time_string_to_seconds time = .ok s →
      (t.total_duration_seconds < s → t.subtract_time time = .err t)
      ∧ (s ≤ t.total_duration_seconds →
          t.subtract_time time = .ok { t with
            total_duration_seconds := t.total_duration_seconds - s }
          ∧ (t.total_duration_seconds - s) + s = t.total_duration_seconds) := by
  intro t time s hparse
  constructor
  · intro hlt
    simp [Task.subtract_time, hparse, hlt]
  · intro hle
    constructor
    · simp [Task.subtract_time, hparse, Nat.not_lt_of_le hle]
    · omega

/-- Witness instantiating `subtract_time_spec` at concrete inputs. -/
theorem subtract_time_spec_witness :
    sampleStopped.subtract_time "2h".toList = .err sampleStopped
    ∧ sampleStopped.subtract_time "1m".toList
        = .ok { sampleStopped with total_duration_seconds := 0 } :=
  ⟨(subtract_time_spec sampleStopped "2h".toList 7200 (by decide)).1 (by decide),
   ((subtract_time_spec sampleStopped "1m".toList 60 (by decide)).2 (by decide)).1⟩

/-- C6: the invariant `running == true → last_run is Some` holds for every
task of a store after `create_task` (whether or not the task starts
immediately), is preserved by every task operation (`start`, `stop`,
`cancel`, `rename`, `add_time`, `subtract_time`, `set_time`, both on
success and on failure), and under it the `last_run.unwrap()` accesses in
`stop` and `current_duration` are never reached with `last_run == None`. -/
theorem running_invariant_spec :
    (∀ (tasks : TaskStore) (nm : String) (start : Bool) (now : Nat),
        (∀ p ∈ tasks, p.2.inv) → ∀ p ∈ create_task tasks nm start now, p.2.inv)
    ∧ (∀ (t : Task) (now : Nat) (t' : Task),
        t.inv → (t.start now).taskOut = some t' → t'.inv)
    ∧ (∀ (t : Task) (now : Nat) (t' : Task),
        t.inv → (t.stop now).taskOut = some t' → t'.inv)
    ∧ (∀ (t t' : Task), t.inv → t.cancel.taskOut = some t' → t'.inv)
    ∧ (∀ (t : Task) (nm : String), t.inv → (t.rename nm).inv)
    ∧ (∀ (t : Task) (time : List Char) (t' : Task),
        t.inv → (t.add_time time).taskOut = some t' → t'.inv)
    ∧ (∀ (t : Task) (time : List Char) (t' : Task),
        t.inv → (t.subtract_time time).taskOut = some t' → t'.inv)
    ∧ (∀ (t : Task) (time : List Char) (t' : Task),
        t.inv → (t.set_time time).taskOut = some t' → t'.inv)
    ∧ (∀ (t : Task) (now : Nat), t.inv → t.stop now ≠ .panicked)
    ∧ (∀ (t : Task) (now : Nat), t.inv → t.current_duration now ≠ none) := by
  refine ⟨?_, ?_, ?_, ?_, ?_, ?_, ?_, ?_, ?_, ?_⟩
  · intro tasks nm start now hall p hp
    rcases List.mem_append.mp hp with hleft | hright
    · exact hall p (List.mem_filter.mp hleft).1
    · rcases List.mem_singleton.mp hright with rfl
      cases start <;> simp [Task.inv]
  · intro t now t' hinv hout
    cases hr : t.running <;> simp [Task.start, hr, OpResult.taskOut] at hout
    · rcases hout with rfl
      simp [Task.inv]
    · rcases hout with rfl
      exact hinv
  · intro t now t' hinv hout
    cases hr : t.running
    · simp [Task.stop, hr, OpResult.taskOut] at hout
      rcases hout with rfl
      exact hinv
    · have hsome := hinv hr
      rcases Option.isSome_iff_exists.mp hsome with ⟨lr, hlr⟩
      simp [Task.stop, hr, hlr, OpResult.taskOut] at hout
      rcases hout with rfl
      simp [Task.inv]
  · intro t t' hinv hout
    cases hr : t.running <;> simp [Task.cancel, hr, OpResult.taskOut] at hout <;>
      rcases hout with rfl
    · exact hinv
    · simp [Task.inv]
  · intro t nm hinv
    intro h
    exact hinv h
  · intro t time t' hinv hout
    cases hp : parse_time_string_to_seconds time <;>
      simp [Task.add_time, hp, OpResult.taskOut] at hout
    rcases hout with rfl
    intro h
    exact hinv h
  · intro t time t' hinv hout
    cases hp : parse_time_string_to_seconds time with
    | ok s =>
      by_cases hlt : t.total_duration_seconds < s
      · simp only [Task.subtract_time, hp, if_pos hlt, OpResult.taskOut,
          Option.some.injEq] at hout
        rcases hout with rfl
        exact hinv
      · simp only [Task.subtract_time, hp, if_neg hlt, OpResult.taskOut,
          Option.some.injEq] at hout
        rcases hout with rfl
        intro h
        exact hinv h
    | invalidFormat => simp [Task.subtract_time, hp, OpResult.taskOut] at hout
    | panicked => simp [Task.subtract_time, hp, OpResult.taskOut] at hout
  · intro t time t' hinv hout
    by_cases hr : t.running
    · simp only [Task.set_time, if_pos hr, OpResult.taskOut, Option.some.injEq] at hout
      rcases hout with rfl
      exact hinv
    · cases hp : parse_time_string_to_seconds time with
      | ok s =>
        simp only [Task.set_time, if_neg hr, hp, OpResult.taskOut,
          Option.some.injEq] at hout
        rcases hout with rfl
        intro h
        exact hinv h
      | invalidFormat => simp [Task.set_time, if_neg hr, hp, OpResult.taskOut] at hout
      | panicked => simp [Task.set_time, if_neg hr, hp, OpResult.taskOut] at hout
  · intro t now hinv
    cases hr : t.running
    · simp [Task.stop, hr]
    · have hsome := hinv hr
      rcases Option.isSome_iff_exists.mp hsome with ⟨lr, hlr⟩
      simp [Task.stop, hr, hlr]
  · intro t now hinv
    cases hr : t.running
    · simp [Task.current_duration, hr]
    · have hsome := hinv hr
      rcases Option.isSome_iff_exists.mp hsome with ⟨lr, hlr⟩
      simp [Task.current_duration, hr, hlr]

/-- Witness instantiating `running_invariant_spec` at concrete inputs. -/
theorem running_invariant_spec_witness :
    (Task.mk 1 "a" 0 true (some 5)).inv
    ∧ ({ sampleStopped with running := true, last_run := some 5 } : Task).inv
    ∧ sampleRunning.stop 105 ≠ .panicked
    ∧ sampleRunning.current_duration 105 ≠ none :=
  ⟨running_invariant_spec.1 [] "a" true 5 (by simp)
      (1, Task.mk 1 "a" 0 true (some 5)) (by decide),
   running_invariant_spec.2.1 sampleStopped 5
      { sampleStopped with running := true, last_run := some 5 } (by decide) (by decide),
   running_invariant_spec.2.2.2.2.2.2.2.2.1 sampleRunning 105 (by decide),
   running_invariant_spec.2.2.2.2.2.2.2.2.2 sampleRunning 105 (by decide)⟩

/-- The fold inside `find_new_unique_id` computes an upper bound of the
stored ids that is either the seed or one of the ids. -/
lemma maxIdFold_spec (l : TaskStore) : ∀ a : Nat,
    (l.foldl (fun maxId p => if p.2.id > maxId then p.2.id else maxId) a = a
      ∨ ∃ p ∈ l, l.foldl (fun maxId p => if p.2.id > maxId then p.2.id else maxId) a = p.2.id)
    ∧ a ≤ l.foldl (fun maxId p => if p.2.id > maxId then p.2.id else maxId) a
    ∧ ∀ p ∈ l, p.2.id ≤ l.foldl (fun maxId p => if p.2.id > maxId then p.2.id else maxId) a := by
  induction l with
  | nil => intro a; simp
  | cons q rest ih =>
    intro a
    rcases ih (if q.2.id > a then q.2.id else a) with ⟨hmem, hle, hub⟩
    simp only [List.foldl_cons]
    refine ⟨?_, ?_, ?_⟩
    · rcases hmem with h | ⟨p, hp, h⟩
      · by_cases hgt : q.2.id > a
        · right
          exact ⟨q, List.mem_cons_self q rest, by rw [h, if_pos hgt]⟩
        · left
          rw [h, if_neg hgt]
      · right
        exact ⟨p, List.mem_cons_of_mem _ hp, h⟩
    · refine le_trans ?_ hle
      split <;> omega
    · intro p hp
      rcases List.mem_cons.mp hp with rfl | hp'
      · refine le_trans ?_ hle
        split <;> omega
      · exact hub p hp'

/-- After `removeTask`, no entry with the removed key can be found. -/
lemma find?_removeTask_self (tasks : TaskStore) (id : Nat) :
    (removeTask tasks id).find? (fun p => p.1 = id) = none := by
  apply List.find?_eq_none.mpr
  intro p hp
  have h := (List.mem_filter.mp hp).2
  simp only [ne_eq, decide_not, Bool.not_eq_eq_eq_not, Bool.not_true,
    decide_eq_false_iff_not] at h
  simpa using h

/-- `HashMap::remove` makes the key absent. -/
lemma getTask_removeTask_self (tasks : TaskStore) (id : Nat) :
    getTask (removeTask tasks id) id = none := by
  simp [getTask, find?_removeTask_self]

/-- `HashMap::insert` makes the inserted task the one found at the key. -/
lemma getTask_insertTask_self (tasks : TaskStore) (id : Nat) (t : Task) :
    getTask (insertTask tasks id t) id = some t := by
  simp [getTask, insertTask, List.find?_append, find?_removeTask_self]

/-- When every stored id is below `u32::MAX`, the `max_id + 1` of the
allocator stays below the `u32` modulus. -/
lemma fold_add_one_lt (tasks : TaskStore)
    (hbound : ∀ p ∈ tasks, p.2.id + 1 < u32Size) :
    (tasks.foldl (fun maxId p => if p.2.id > maxId then p.2.id else maxId) 0) + 1 < u32Size := by
  rcases maxIdFold_spec tasks 0 with ⟨hmem, -, -⟩
  rcases hmem with h | ⟨p, hp, h⟩
  · rw [h]
    decide
  · rw [h]
    exact hbound p hp

/-- Below the wrap boundary the allocator really returns `max + 1`. -/
lemma find_new_unique_id_eq (tasks : TaskStore)
    (hbound : ∀ p ∈ tasks, p.2.id + 1 < u32Size) :
    find_new_unique_id tasks
      = (tasks.foldl (fun maxId p => if p.2.id > maxId then p.2.id else maxId) 0) + 1 := by
  simp [find_new_unique_id, Nat.mod_eq_of_lt (fold_add_one_lt tasks hbound)]

/-- Below the wrap boundary, no stored id reaches the allocated id. -/
lemma id_lt_find_new_unique_id (tasks : TaskStore)
    (hbound : ∀ p ∈ tasks, p.2.id + 1 < u32Size) :
    ∀ p ∈ tasks, p.2.id < find_new_unique_id tasks := by
  intro p hp
  rw [find_new_unique_id_eq tasks hbound]
  have h := (maxIdFold_spec tasks 0).2.2 p hp
  omega

/-- C8 counterexample: at a stored id of `u32::MAX = 4294967295` the
`u32` increment wraps, so the allocator returns `0`, not one plus the
maximum id; and on the key-coherent store `wrapArchive` (keys `0` and
`u32::MAX`, each equal to its task's id) the returned id `0` is already a
key. -/
theorem allocate_id_wrap_counterexample :
    find_new_unique_id [(4294967295, { sampleStopped with id := 4294967295 })] = 0
    ∧ find_new_unique_id [(4294967295, { sampleStopped with id := 4294967295 })]
        ≠ 4294967295 + 1
    ∧ find_new_unique_id wrapArchive = 0
    ∧ getTask wrapArchive (find_new_unique_id wrapArchive) ≠ none := by
  decide

/-- C8 (amended): `find_new_unique_id` returns `1` on the empty store,
and one plus the maximum id field over the stored tasks whenever that
maximum is below `u32::MAX` (the `u32` increment wraps to `0` at
`u32::MAX`); on a store with ids `{1, 3}` it returns `4`; and when every
entry's key equals its task's id (as every inserting code path maintains)
and every id is below `u32::MAX`, the returned id is never already a key
of the store. -/
theorem allocate_id_spec :
    find_new_unique_id [] = 1
    ∧ (∀ (tasks : TaskStore) (q : Nat × Task), q ∈ tasks →
        (∀ r ∈ tasks, r.2.id ≤ q.2.id) → q.2.id + 1 < u32Size →
        find_new_unique_id tasks = q.2.id + 1)
    ∧ find_new_unique_id [(1, sampleStopped), (3, { sampleStopped with id := 3 })] = 4
    ∧ (∀ tasks : TaskStore, (∀ p ∈ tasks, p.1 = p.2.id) →
        (∀ p ∈ tasks, p.2.id + 1 < u32Size) →
        ∀ p ∈ tasks, p.1 ≠ find_new_unique_id tasks) := by
  refine ⟨rfl, ?_, by decide, ?_⟩
  · intro tasks q hq hmax hqfit
    have hbound : ∀ p ∈ tasks, p.2.id + 1 < u32Size := by
      intro p hp
      have := hmax p hp
      omega
    rw [find_new_unique_id_eq tasks hbound]
    rcases maxIdFold_spec tasks 0 with ⟨hmem, -, hub⟩
    have hqle := hub q hq
    rcases hmem with h | ⟨p, hp, h⟩
    · omega
    · have := hmax p hp
      omega
  · intro tasks hcoh hbound p hp
    have h1 := id_lt_find_new_unique_id tasks hbound p hp
    have h2 := hcoh p hp
    omega

/-- Witness instantiating `allocate_id_spec` at concrete inputs. -/
theorem allocate_id_spec_witness :
    find_new_unique_id [(1, sampleStopped), (3, { sampleStopped with id := 3 })]
      = ({ sampleStopped with id := 3 } : Task).id + 1
    ∧ (1 : Nat) ≠ find_new_unique_id [(1, sampleStopped)] :=
  ⟨allocate_id_spec.2.1 _ (3, { sampleStopped with id := 3 }) (by decide) (by decide) (by decide),
   allocate_id_spec.2.2.2 [(1, sampleStopped)] (by decide) (by decide) (1, sampleStopped)
     (by decide)⟩

/-- C2 (spec-modelled operation): `remove_by_name` returns `NotFound` when
no task has the name, removes the sole match and succeeds when exactly one
task has it (the removed key is gone, every other entry survives), and
returns `Ambiguous` — removing nothing — when two or more tasks share the
name. -/
theorem remove_by_name_spec :
    ∀ (tasks : TaskStore) (nm : String),
      (tasks.filter (fun p => p.2.name = nm) = [] →
          remove_by_name tasks nm = .notFound)
      ∧ (∀ p : Nat × Task, tasks.filter (fun p => p.2.name = nm) = [p] →
          p ∈ tasks ∧ p.2.name = nm
          ∧ remove_by_name tasks nm = .ok (removeTask tasks p.1)
          ∧ getTask (removeTask tasks p.1) p.1 = none
          ∧ ∀ q ∈ tasks, q.1 ≠ p.1 → q ∈ removeTask tasks p.1)
      ∧ (∀ (a b : Nat × Task) (rest : List (Nat × Task)),
          tasks.filter (fun p => p.2.name = nm) = a :: b :: rest →
          remove_by_name tasks nm = .ambiguous) := by
  intro tasks nm
  refine ⟨fun h => ?_, fun p hp => ?_, fun a b rest h => ?_⟩
  · simp [remove_by_name, h]
  · have hpmem : p ∈ tasks.filter (fun p => p.2.name = nm) := by
      rw [hp]; exact List.mem_singleton_self p
    have hmem := List.mem_filter.mp hpmem
    refine ⟨hmem.1, by simpa using hmem.2, by simp [remove_by_name, hp],
      getTask_removeTask_self tasks p.1, ?_⟩
    intro q hq hne
    exact List.mem_filter.mpr ⟨hq, by simpa using hne⟩
  · simp [remove_by_name, h]

/-- Witness instantiating `remove_by_name_spec` at concrete inputs. -/
theorem remove_by_name_spec_witness :
    remove_by_name [(1, sampleStopped)] "zzz" = .notFound
    ∧ remove_by_name [(1, sampleStopped), (2, { sampleStopped with id := 2, name := "u" })] "u"
        = .ok (removeTask [(1, sampleStopped), (2, { sampleStopped with id := 2, name := "u" })] 2)
    ∧ remove_by_name [(1, sampleStopped), (2, { sampleRunning with id := 2 })] "t" = .ambiguous :=
  ⟨(remove_by_name_spec [(1, sampleStopped)] "zzz").1 (by decide),
   ((remove_by_name_spec [(1, sampleStopped), (2, { sampleStopped with id := 2, name := "u" })]
        "u").2.1 (2, { sampleStopped with id := 2, name := "u" }) (by decide)).2.2.1,
   (remove_by_name_spec [(1, sampleStopped), (2, { sampleRunning with id := 2 })] "t").2.2
      (1, sampleStopped) (2, { sampleRunning with id := 2 }) [] (by decide)⟩

/-- C7 counterexample: with the archive store `wrapArchive` (key-coherent,
maximal id `u32::MAX`), archiving a stopped task allocates the wrapped id
`0`, which is already an archive key, so the copy is not inserted under a
fresh id: it overwrites the archived task stored at key `0`. -/
theorem archive_wrap_counterexample :
    find_new_unique_id wrapArchive = 0
    ∧ getTask wrapArchive 0 = some { sampleStopped with id := 0, name := "old" }
    ∧ archive_task [(1, sampleStopped)] wrapArchive 1
        = .ok [] (insertTask wrapArchive 0 { sampleStopped with id := 0 }) 0
    ∧ getTask (insertTask wrapArchive 0 { sampleStopped with id := 0 }) 0
        ≠ some { sampleStopped with id := 0, name := "old" } := by
  decide

/-- C7 (amended): archiving a stopped task inserts a copy of it into the
archive store under the id newly allocated by the archive store's `u32`
allocator (the copy's id is `find_new_unique_id archive`, not the
original id), that copy is found there, and the task is removed from the
source store; whenever the archive store's keys match its tasks' ids and
every archive id is below `u32::MAX`, the allocated id was not already a
key of the archive store (at a maximal archive id of `u32::MAX` the
allocator wraps to `0`, which can collide); archiving a running task
fails busy and returns both stores unchanged. -/
theorem archive_spec :
    ∀ (tasks archive : TaskStore) (id : Nat) (t : Task),
      getTask tasks id = some t →
      (t.running = false →
          archive_task tasks archive id
            = .ok (removeTask tasks id)
                (insertTask archive (find_new_unique_id archive)
                  { t with id := find_new_unique_id archive })
                (find_new_unique_id archive)
          ∧ getTask (insertTask archive (find_new_unique_id archive)
                { t with id := find_new_unique_id archive })
              (find_new_unique_id archive)
              = some { t with id := find_new_unique_id archive }
          ∧ getTask (removeTask tasks id) id = none
          ∧ ((∀ p ∈ archive, p.1 = p.2.id) →
              (∀ p ∈ archive, p.2.id + 1 < u32Size) →
              getTask archive (find_new_unique_id archive) = none))
      ∧ (t.running = true → archive_task tasks archive id = .busy tasks archive) := by
  intro tasks archive id t hget
  constructor
  · intro hrun
    refine ⟨by simp [archive_task, hget, hrun], getTask_insertTask_self _ _ _,
      getTask_removeTask_self _ _, ?_⟩
    intro hcoh hbound
    have hnone : archive.find? (fun p => p.1 = find_new_unique_id archive) = none := by
      apply List.find?_eq_none.mpr
      intro p hp
      have h1 := id_lt_find_new_unique_id archive hbound p hp
      have h2 := hcoh p hp
      simp only [decide_eq_true_eq]
      omega
    simp [getTask, hnone]
  · intro hrun
    simp [archive_task, hget, hrun]

/-- Witness instantiating `archive_spec` at concrete inputs. -/
theorem archive_spec_witness :
    archive_task [(1, sampleStopped)] [(3, { sampleStopped with id := 3 })] 1
      = .ok (removeTask [(1, sampleStopped)] 1)
          (insertTask [(3, { sampleStopped with id := 3 })]
            (find_new_unique_id [(3, { sampleStopped with id := 3 })])
            { sampleStopped with id := find_new_unique_id [(3, { sampleStopped with id := 3 })] })
          (find_new_unique_id [(3, { sampleStopped with id := 3 })])
    ∧ getTask [(3, { sampleStopped with id := 3 })]
        (find_new_unique_id [(3, { sampleStopped with id := 3 })]) = none
    ∧ archive_task [(1, sampleRunning)] [] 1 = .busy [(1, sampleRunning)] [] :=
  ⟨((archive_spec [(1, sampleStopped)] [(3, { sampleStopped with id := 3 })] 1 sampleStopped
      (by decide)).1 rfl).1,
   ((archive_spec [(1, sampleStopped)] [(3, { sampleStopped with id := 3 })] 1 sampleStopped
      (by decide)).1 rfl).2.2.2 (by decide) (by decide),
   (archive_spec [(1, sampleRunning)] [] 1 sampleRunning (by decide)).2 rfl⟩

/-- `firstIdx` on an appended list: the index in the left part when
present, otherwise the shifted index in the right part. -/
lemma firstIdx_append (c : Char) (l₁ l₂ : List Char) :
    firstIdx c (l₁ ++ l₂) =
      match firstIdx c l₁ with
      | some i => some i
      | none => (firstIdx c l₂).map (· + l₁.length) := by
  induction l₁ with
  | nil =>
    simp only [List.nil_append, firstIdx, List.length_nil]
    cases firstIdx c l₂ <;> simp
  | cons a l ih =>
    by_cases h : a = c
    · simp [firstIdx, h]
    · simp only [List.cons_append, firstIdx, if_neg h, List.length_cons, List.append_eq]
      rw [ih]
      cases hfl : firstIdx c l with
      | some i => simp
      | none =>
        cases hfl2 : firstIdx c l₂ with
        | none => simp
        | some j => simp [Nat.add_assoc]

/-- A character that is not in the list has no first index. -/
lemma firstIdx_eq_none (c : Char) (l : List Char) (h : c ∉ l) :
    firstIdx c l = none := by
  induction l with
  | nil => rfl
  | cons a rest ih =>
    have ha : ¬ a = c := fun hc => h (hc ▸ List.mem_cons_self a rest)
    simp [firstIdx, ha, ih (fun hc => h (List.mem_cons_of_mem a hc))]

/-- A found first index is inside the list. -/
lemma firstIdx_lt_length (c : Char) (l : List Char) (i : Nat)
    (h : firstIdx c l = some i) : i < l.length := by
  induction l generalizing i with
  | nil => cases h
  | cons a rest ih =>
    by_cases ha : a = c
    · simp only [firstIdx, if_pos ha, Option.some.injEq] at h
      simp only [List.length_cons]
      omega
    · simp only [firstIdx, if_neg ha, Option.map_eq_some'] at h
      rcases h with ⟨j, hj, rfl⟩
      have := ih j hj
      simp only [List.length_cons]
      omega

/-- A character that is in the list has a first index. -/
lemma firstIdx_ne_none (c : Char) (l : List Char) (h : c ∈ l) :
    firstIdx c l ≠ none := by
  induction l with
  | nil => cases h
  | cons a rest ih =>
    by_cases ha : a = c
    · simp [firstIdx, ha]
    · rcases List.mem_cons.mp h with h' | h'
      · exact absurd h'.symm ha
      · simp only [firstIdx, if_neg ha]
        cases hf : firstIdx c rest with
        | none => exact absurd hf (ih h')
        | some j => simp

/-- A successfully parsed `u64` literal consists of digits after an
optional leading sign. -/
lemma parseU64_all_digits {s : List Char} {v : Nat} (h : parseU64 s = some v) :
    (if s.head? = some '+' then s.tail else s).all Char.isDigit = true := by
  unfold parseU64 at h
  set digits := if s.head? = some '+' then s.tail else s with hd
  by_cases he : digits.isEmpty
  · simp [he] at h
  · by_cases ha : digits.all Char.isDigit
    · exact ha
    · simp [he, ha] at h

/-- No character other than `+` and the digits occurs in a successfully
parsed `u64` literal. -/
lemma not_mem_of_parseU64 {s : List Char} {v : Nat} {c : Char}
    (h : parseU64 s = some v) (hplus : c ≠ '+') (hdig : c.isDigit = false) :
    c ∉ s := by
  intro hmem
  have hall := parseU64_all_digits h
  by_cases hh : s.head? = some '+'
  · rw [if_pos hh] at hall
    cases s with
    | nil => cases hmem
    | cons a rest =>
      have ha : a = '+' := by simpa using hh
      rcases List.mem_cons.mp hmem with rfl | hc
      · exact hplus ha
      · have := List.all_eq_true.mp hall c hc
        rw [hdig] at this
        cases this
  · rw [if_neg hh] at hall
    have := List.all_eq_true.mp hall c hmem
    rw [hdig] at this
    cases this

/-- Everything after the first `h` marker is invisible to the parser as
long as no `m` occurs anywhere: the `h` branch only reads the prefix
before the first `h`, and with no `m` present the minute branch is never
taken. -/
lemma parse_append_h (H rest : List Char) (hmH : 'm' ∉ H) (hmr : 'm' ∉ rest) :
    parse_time_string_to_seconds (H ++ 'h' :: rest)
      = parse_time_string_to_seconds (H ++ ['h']) := by
  have hm₁ : firstIdx 'm' (H ++ 'h' :: rest) = none := by
    apply firstIdx_eq_none
    intro hc
    rcases List.mem_append.mp hc with h | h
    · exact hmH h
    · rcases List.mem_cons.mp h with h | h
      · cases h
      · exact hmr h
  have hm₂ : firstIdx 'm' (H ++ ['h']) = none := by
    apply firstIdx_eq_none
    intro hc
    rcases List.mem_append.mp hc with h | h
    · exact hmH h
    · rcases List.mem_cons.mp h with h | h
      · cases h
      · cases h
  have hh : firstIdx 'h' (H ++ 'h' :: rest) = firstIdx 'h' (H ++ ['h']) := by
    rw [firstIdx_append, firstIdx_append]
    cases firstIdx 'h' H with
    | some i => rfl
    | none => simp [firstIdx]
  cases hidx : firstIdx 'h' (H ++ ['h']) with
  | none =>
    exact absurd hidx (firstIdx_ne_none 'h' (H ++ ['h'])
      (List.mem_append.mpr (Or.inr (List.mem_singleton_self 'h'))))
  | some i =>
    have hlt : i < (H ++ ['h']).length := firstIdx_lt_length _ _ _ hidx
    have hle : i ≤ H.length := by
      simp only [List.length_append, List.length_cons, List.length_nil] at hlt
      omega
    have htake : (H ++ 'h' :: rest).take i = (H ++ ['h']).take i := by
      rw [List.take_append_of_le_length hle, List.take_append_of_le_length hle]
    simp only [parse_time_string_to_seconds, hm₁, hm₂, hh, hidx, htake]

/-- With no marker present the parser reports the format error. -/
lemma parse_no_marker (input : List Char) (hh : 'h' ∉ input) (hm : 'm' ∉ input) :
    parse_time_string_to_seconds input = .invalidFormat := by
  simp [parse_time_string_to_seconds, firstIdx_eq_none _ _ hh, firstIdx_eq_none _ _ hm]

/-- A pure hour token `Hh`: the digits before the marker are the hours. -/
lemma parse_h_base (H : List Char) (h : Nat) (hH : parseU64 H = some h)
    (hfit : h * 3600 < u64Size) :
    parse_time_string_to_seconds (H ++ ['h']) = .ok (h * 3600) := by
  have hnoh : 'h' ∉ H := not_mem_of_parseU64 hH (by decide) (by decide)
  have hnom : 'm' ∉ H := not_mem_of_parseU64 hH (by decide) (by decide)
  have hIdx : firstIdx 'h' (H ++ ['h']) = some H.length := by
    rw [firstIdx_append, firstIdx_eq_none 'h' H hnoh]
    simp [firstIdx]
  have hmIdx : firstIdx 'm' (H ++ ['h']) = none := by
    apply firstIdx_eq_none
    intro hc
    rcases List.mem_append.mp hc with hc | hc
    · exact hnom hc
    · exact absurd (List.mem_singleton.mp hc) (by decide)
  simp only [parse_time_string_to_seconds, hIdx, hmIdx]
  simp [List.take_left, hH, Nat.mod_eq_of_lt hfit]

/-- A pure minute token `Mm`: the digits before the marker are the
minutes. -/
lemma parse_m_base (M : List Char) (m : Nat) (hM : parseU64 M = some m)
    (hfit : m * 60 < u64Size) :
    parse_time_string_to_seconds (M ++ ['m']) = .ok (m * 60) := by
  have hnoh : 'h' ∉ M := not_mem_of_parseU64 hM (by decide) (by decide)
  have hnom : 'm' ∉ M := not_mem_of_parseU64 hM (by decide) (by decide)
  have hIdx : firstIdx 'h' (M ++ ['m']) = none := by
    apply firstIdx_eq_none
    intro hc
    rcases List.mem_append.mp hc with hc | hc
    · exact hnoh hc
    · exact absurd (List.mem_singleton.mp hc) (by decide)
  have hmIdx : firstIdx 'm' (M ++ ['m']) = some M.length := by
    rw [firstIdx_append, firstIdx_eq_none 'm' M hnom]
    simp [firstIdx]
  simp only [parse_time_string_to_seconds, hIdx, hmIdx]
  simp [List.take_left, hM, Nat.mod_eq_of_lt hfit]

/-- A combined token `HhMm`: hours before the `h`, minutes between the
markers. -/
lemma parse_hm_base (H M : List Char) (h m : Nat)
    (hH : parseU64 H = some h) (hM : parseU64 M = some m)
    (hfit : h * 3600 + m * 60 < u64Size) :
    parse_time_string_to_seconds (H ++ 'h' :: (M ++ ['m'])) = .ok (h * 3600 + m * 60) := by
  have hnohH : 'h' ∉ H := not_mem_of_parseU64 hH (by decide) (by decide)
  have hnomH : 'm' ∉ H := not_mem_of_parseU64 hH (by decide) (by decide)
  have hnohM : 'h' ∉ M := not_mem_of_parseU64 hM (by decide) (by decide)
  have hnomM : 'm' ∉ M := not_mem_of_parseU64 hM (by decide) (by decide)
  have hIdx : firstIdx 'h' (H ++ 'h' :: (M ++ ['m'])) = some H.length := by
    rw [firstIdx_append, firstIdx_eq_none 'h' H hnohH]
    simp [firstIdx]
  have hmIdx : firstIdx 'm' (H ++ 'h' :: (M ++ ['m'])) = some (M.length + 1 + H.length) := by
    rw [firstIdx_append, firstIdx_eq_none 'm' H hnomH]
    have hinner : firstIdx 'm' ('h' :: (M ++ ['m'])) = some (M.length + 1) := by
      have : firstIdx 'm' (M ++ ['m']) = some M.length := by
        rw [firstIdx_append, firstIdx_eq_none 'm' M hnomM]
        simp [firstIdx]
      simp [firstIdx, this]
    rw [hinner]
    rfl
  have hcond : H.length + 1 ≤ M.length + 1 + H.length := by omega
  have htake1 : (H ++ 'h' :: (M ++ ['m'])).take H.length = H := List.take_left H _
  have hdrop : (H ++ 'h' :: (M ++ ['m'])).drop (H.length + 1) = M ++ ['m'] := by
    have hsplit : H ++ 'h' :: (M ++ ['m']) = (H ++ ['h']) ++ (M ++ ['m']) := by simp
    have hlen : H.length + 1 = (H ++ ['h']).length := by simp
    rw [hsplit, hlen, List.drop_left]
  have hsub : M.length + 1 + H.length - (H.length + 1) = M.length := by omega
  simp only [parse_time_string_to_seconds, hIdx, hmIdx]
  simp [hcond, htake1, hdrop, hsub, List.take_left, hH, hM, Nat.mod_eq_of_lt hfit]

/-- Characters after the first `h` marker are discarded as long as no `m`
occurs among them and the prefix holds a parseable hour count. -/
lemma parse_h_trailing (H rest : List Char) (h : Nat) (hH : parseU64 H = some h)
    (hmr : 'm' ∉ rest) (hfit : h * 3600 < u64Size) :
    parse_time_string_to_seconds (H ++ 'h' :: rest) = .ok (h * 3600) := by
  have hnom : 'm' ∉ H := not_mem_of_parseU64 hH (by decide) (by decide)
  rw [parse_append_h H rest hnom hmr]
  exact parse_h_base H h hH hfit

/-- Characters after the first `m` marker are invisible to the parser as
long as none of them is an `h`: the minute branch stops at the first `m`,
and the hour branch only sees an `h` occurring before it. -/
lemma parse_append_m (P rest : List Char) (hhrest : 'h' ∉ rest) :
    parse_time_string_to_seconds (P ++ 'm' :: rest)
      = parse_time_string_to_seconds (P ++ ['m']) := by
  have hhl : firstIdx 'h' (P ++ 'm' :: rest) = firstIdx 'h' P := by
    rw [firstIdx_append]
    have hnone : firstIdx 'h' ('m' :: rest) = none := by
      apply firstIdx_eq_none
      intro hc
      rcases List.mem_cons.mp hc with hc | hc
      · cases hc
      · exact hhrest hc
    rw [hnone]
    cases firstIdx 'h' P <;> rfl
  have hhr2 : firstIdx 'h' (P ++ ['m']) = firstIdx 'h' P := by
    rw [firstIdx_append]
    have hnone : firstIdx 'h' (['m'] : List Char) = none := by decide
    rw [hnone]
    cases firstIdx 'h' P <;> rfl
  obtain ⟨mval, hml, hmr2, hmle⟩ :
      ∃ mval, firstIdx 'm' (P ++ 'm' :: rest) = some mval
        ∧ firstIdx 'm' (P ++ ['m']) = some mval ∧ mval ≤ P.length := by
    cases hm : firstIdx 'm' P with
    | some j =>
      refine ⟨j, ?_, ?_, le_of_lt (firstIdx_lt_length _ _ _ hm)⟩ <;>
        · rw [firstIdx_append, hm]
    | none =>
      refine ⟨P.length, ?_, ?_, le_refl _⟩ <;>
        · rw [firstIdx_append, hm]
          simp [firstIdx]
  cases hh : firstIdx 'h' P with
  | none =>
    have hs : (P ++ 'm' :: rest).take mval = (P ++ ['m']).take mval := by
      rw [List.take_append_of_le_length hmle, List.take_append_of_le_length hmle]
    simp only [parse_time_string_to_seconds, hhl, hhr2, hml, hmr2, hh]
    simp [hs]
  | some i =>
    have hilt : i < P.length := firstIdx_lt_length _ _ _ hh
    have hile : i ≤ P.length := le_of_lt hilt
    have ht : (P ++ 'm' :: rest).take i = (P ++ ['m']).take i := by
      rw [List.take_append_of_le_length hile, List.take_append_of_le_length hile]
    have hnle : mval - (i + 1) ≤ (P.drop (i + 1)).length := by
      simp only [List.length_drop]
      omega
    have hs : ((P ++ 'm' :: rest).drop (i + 1)).take (mval - (i + 1))
        = ((P ++ ['m']).drop (i + 1)).take (mval - (i + 1)) := by
      rw [List.drop_append_of_le_length hilt, List.drop_append_of_le_length hilt,
        List.take_append_of_le_length hnle, List.take_append_of_le_length hnle]
    simp only [parse_time_string_to_seconds, hhl, hhr2, hml, hmr2, hh, ht, hs]

/-- C9 counterexample: a token made of an hour segment of twenty digits
followed by `h` is of the claimed form, but its value exceeds `u64::MAX`,
so `parse::<u64>` fails and the `.expect` aborts instead of returning
`hours * 3600`. -/
theorem parse_overflow_hours_counterexample :
    parse_time_string_to_seconds "99999999999999999999h".toList = .panicked
    ∧ parse_time_string_to_seconds "99999999999999999999h".toList
        ≠ .ok (99999999999999999999 * 3600) := by
  decide

/-- C9 (amended): for tokens whose segments parse as `u64` and whose total
seconds fit in `u64`, the parser returns `hours * 3600 + minutes * 60`
for the shapes `Hh`, `Mm` and `HhMm`; and every input containing neither
marker fails with the format error. -/
theorem parse_token_spec_amended :
    (∀ (H : List Char) (h : Nat), parseU64 H = some h → h * 3600 < u64Size →
        parse_time_string_to_seconds (H ++ ['h']) = .ok (h * 3600))
    ∧ (∀ (M : List Char) (m : Nat), parseU64 M = some m → m * 60 < u64Size →
        parse_time_string_to_seconds (M ++ ['m']) = .ok (m * 60))
    ∧ (∀ (H M : List Char) (h m : Nat), parseU64 H = some h → parseU64 M = some m →
        h * 3600 + m * 60 < u64Size →
        parse_time_string_to_seconds (H ++ 'h' :: (M ++ ['m'])) = .ok (h * 3600 + m * 60))
    ∧ (∀ input : List Char, 'h' ∉ input → 'm' ∉ input →
        parse_time_string_to_seconds input = .invalidFormat) :=
  ⟨parse_h_base, parse_m_base, parse_hm_base, parse_no_marker⟩

/-- Witness instantiating `parse_token_spec_amended` at concrete tokens. -/
theorem parse_token_spec_amended_witness :
    parse_time_string_to_seconds (['1'] ++ 'h' :: (['3', '0'] ++ ['m'])) = .ok (1 * 3600 + 30 * 60)
    ∧ parse_time_string_to_seconds (['4', '5'] ++ ['m']) = .ok (45 * 60)
    ∧ parse_time_string_to_seconds [] = .invalidFormat :=
  ⟨parse_token_spec_amended.2.2.1 ['1'] ['3', '0'] 1 30 (by decide) (by decide) (by decide),
   parse_token_spec_amended.2.1 ['4', '5'] 45 (by decide) (by decide),
   parse_token_spec_amended.2.2.2 [] (by decide) (by decide)⟩

/-- C10 counterexample: `"45mh"` contains `m`, yet the characters after
the first `m` are not discarded — the stray `h` makes the hour branch
parse `"45m"` as a number, which panics, instead of the claimed accepted
result `parse("45m") = 2700`. -/
theorem parse_trailing_counterexample :
    parse_time_string_to_seconds "45mh".toList = .panicked
    ∧ parse_time_string_to_seconds "45m".toList = .ok 2700
    ∧ parse_time_string_to_seconds "45mh".toList
        ≠ parse_time_string_to_seconds "45m".toList := by
  decide

/-- C10 (amended): with no `m` anywhere, everything after the first `h` is
discarded (and a valid hour prefix is accepted, e.g. `"2habc"`); and the
characters after the first `m` are discarded provided none of them is an
`h` — an `h` appearing only after the first `m` changes the hour segment
instead of being ignored. -/
theorem parse_trailing_discard_amended :
    (∀ (H rest : List Char), 'm' ∉ H → 'm' ∉ rest →
        parse_time_string_to_seconds (H ++ 'h' :: rest)
          = parse_time_string_to_seconds (H ++ ['h']))
    ∧ (∀ (H rest : List Char) (h : Nat), parseU64 H = some h → 'm' ∉ rest →
        h * 3600 < u64Size →
        parse_time_string_to_seconds (H ++ 'h' :: rest) = .ok (h * 3600))
    ∧ (∀ (P rest : List Char), 'h' ∉ rest →
        parse_time_string_to_seconds (P ++ 'm' :: rest)
          = parse_time_string_to_seconds (P ++ ['m'])) :=
  ⟨parse_append_h, parse_h_trailing, parse_append_m⟩

/-- Witness instantiating `parse_trailing_discard_amended` at the claim's
example tokens `"2habc"` and `"1h30mxyz"`. -/
theorem parse_trailing_discard_amended_witness :
    parse_time_string_to_seconds (['2'] ++ 'h' :: ['a', 'b', 'c']) = .ok (2 * 3600)
    ∧ parse_time_string_to_seconds (['1', 'h', '3', '0'] ++ 'm' :: ['x', 'y', 'z'])
        = parse_time_string_to_seconds (['1', 'h', '3', '0'] ++ ['m']) :=
  ⟨parse_trailing_discard_amended.2.1 ['2'] ['a', 'b', 'c'] 2 (by decide) (by decide) (by decide),
   parse_trailing_discard_amended.2.2 ['1', 'h', '3', '0'] ['x', 'y', 'z'] (by decide)⟩

end TaskTimer
